import Mathlib

/-!
Verification of the prereview suggestion protocol and review session engine.

This file gives a shallow embedding, in Lean 4, of the core of the
`prereview` pre-commit assistant:

* the response parser `parseStructuredResponse` / `parseReviewResponse`
  (internal/review, file `part_004`),
* the review orchestrator `Review` (same file),
* the interactive session engine `Run` (internal/ui/session.go),
* the patch applier `applyFix` (internal/ui/session.go),
* the change filter `shouldIgnoreFile` / the filtering loop of `runReview`
  (cmd/review.go), including a faithful model of Go's `path.Match` glob
  matcher as consumed by that code.

Go strings are modelled as Lean `String` (lists of unicode scalars); all
string primitives used by the source (`strings.Split`, `strings.Join`,
`strings.TrimSpace`, `strings.ToLower`, `strings.HasPrefix`,
`strings.Contains`, `strings.Replace`, `strconv.Atoi`, `filepath.Base`,
`filepath.Match`) are re-implemented below as executable structural
functions so that every definition evaluates by kernel reduction.
Side effects (terminal printing, file IO, the git index, the assistant
transport) are made explicit: file contents and user input are passed as
values, and the assistant is an oracle function.
-/

namespace Prereview

/-! ### Go string primitives -/

/-- ASCII fragment of Go's `unicode.IsSpace`, the character set trimmed by
`strings.TrimSpace` (space, tab, newline, vertical tab, form feed,
carriage return).  The source only ever trims ASCII terminal input and
protocol field values, so the ASCII fragment is faithful there. -/
def isSpaceGo (c : Char) : Bool :=
  c == ' ' || c == '\t' || c == '\n' || c == '\x0b' || c == '\x0c' || c == '\r'

/-- Go `strings.TrimSpace`: drop leading and trailing whitespace. -/
def trimSpace (s : String) : String :=
  String.mk (((s.data.dropWhile isSpaceGo).reverse.dropWhile isSpaceGo).reverse)

/-- Lower-case one ASCII letter (fragment of Go `strings.ToLower`). -/
def lowerChar (c : Char) : Char :=
  if 'A' ≤ c ∧ c ≤ 'Z' then Char.ofNat (c.toNat + 32) else c

/-- Go `strings.ToLower`, restricted to ASCII letters. -/
def toLowerStr (s : String) : String :=
  String.mk (s.data.map lowerChar)

/-- Go `strings.HasPrefix`. -/
def hasPrefixGo (s pre : String) : Bool :=
  pre.data.isPrefixOf s.data

/-- Go `strings.Contains` on character lists: `sub` occurs somewhere in `s`. -/
def containsSub (s sub : List Char) : Bool :=
  if sub.isPrefixOf s then true
  else
    match s with
    | [] => false
    | _ :: t => containsSub t sub

/-- Go `strings.Contains` on strings. -/
def containsStr (s sub : String) : Bool :=
  containsSub s.data sub.data

/-- Go `strings.Replace(s, old, new, 1)` on character lists: replace the
first (leftmost) occurrence of `old` by `new`; if `old` does not occur the
list is returned unchanged.  As in Go, an empty `old` matches at the start. -/
def replaceFirstL (old new : List Char) : List Char → List Char
  | [] => if old.isPrefixOf [] then new ++ List.drop old.length [] else []
  | c :: t =>
    if old.isPrefixOf (c :: t) then new ++ List.drop old.length (c :: t)
    else c :: replaceFirstL old new t

/-- Go `strings.Split(s, "\n")` at the character-list level. -/
def splitCharsOnNl : List Char → List (List Char)
  | [] => [[]]
  | c :: cs =>
    let r := splitCharsOnNl cs
    if c = '\n' then [] :: r
    else
      match r with
      | [] => [[c]]
      | l :: ls => (c :: l) :: ls

/-- Function `splitLines` from the source: `strings.Split(s, "\n")`. -/
def splitLines (s : String) : List String :=
  (splitCharsOnNl s.data).map String.mk

/-- Function `joinLines` from the source: `strings.Join(lines, "\n")`. -/
def joinLines : List String → String
  | [] => ""
  | [s] => s
  | s :: rest => s ++ "\n" ++ joinLines rest

/-- Value of a decimal digit list (used by `atoiGo`). -/
def natOfDigits (l : List Char) : Nat :=
  l.foldl (fun n c => n * 10 + (c.toNat - '0'.toNat)) 0

/-- Go `strconv.Atoi`: an optional sign followed by at least one decimal
digit and nothing else; anything else is an error (`none`). -/
def atoiGo (s : String) : Option Int :=
  match s.data with
  | [] => none
  | '+' :: rest =>
    if rest.isEmpty then none
    else if rest.all Char.isDigit then some (natOfDigits rest) else none
  | '-' :: rest =>
    if rest.isEmpty then none
    else if rest.all Char.isDigit then some (-(natOfDigits rest : Int)) else none
  | l =>
    if l.all Char.isDigit then some (natOfDigits l) else none

/-! ### The Suggestion data model (internal/review, `part_004`) -/

/-- Structure `Suggestion` from `part_004`.  `Severity` and `Confidence` are string
newtypes in Go and are modelled as plain strings. -/
structure Suggestion where
  File : String
  Line : Int
  EndLine : Int
  Severity : String
  Confidence : String
  Title : String
  Description : String
  OriginalCode : String
  SuggestFix : String
  Category : String
deriving Repr, DecidableEq

/-- The zero-valued `Suggestion{File: file}` allocated at each `---` line. -/
def emptySuggestion (file : String) : Suggestion :=
  ⟨file, 0, 0, "", "", "", "", "", "", ""⟩

/-- Structure `ReviewResult` from `part_004`. -/
structure ReviewResult where
  Files : List String
  Suggestions : List Suggestion
  Summary : String
deriving Repr, DecidableEq

/-! ### The response parser (`parseStructuredResponse`, `part_004`) -/

/-- Function `parseStringValue(line, prefixStr)` from the source: if the line is no
longer than the field name, the empty string, otherwise the trimmed
remainder after the field name. -/
def parseStringValue (line pre : String) : String :=
  if line.length ≤ pre.length then ""
  else trimSpace (String.mk (line.data.drop pre.data.length))

/-- Function `parseIntValue(line, prefixStr)` from the source: `strconv.Atoi` of the
field value, falling back to `0` on any parse error. -/
def parseIntValue (line pre : String) : Int :=
  match atoiGo (parseStringValue line pre) with
  | some n => n
  | none => 0

/-- The mutable locals of the parsing loop in `parseStructuredResponse`:
the suggestions emitted so far, the record under construction (`current`,
`nil` before the first `---`), the field a `<<< ... >>>` block is bound to,
the lines accumulated inside an open block, whether a block is open, and
the last `ORIGINAL:`/`FIX:` opener seen in the current record. -/
structure PState where
  suggestions : List Suggestion
  current : Option Suggestion
  multiLineField : String
  multiLineContent : List String
  inMultiLine : Bool
  lastField : String
deriving Repr, DecidableEq

/-- The initial parser state. -/
def initPState : PState :=
  ⟨[], none, "", [], false, ""⟩

/-- The `">>>"` branch of the parsing loop: close the multi-line block,
writing the newline-join of the accumulated lines to the field recorded in
`multiLineField`. -/
def closeBlock (st : PState) : PState :=
  { st with
    current :=
      match st.current with
      | some c =>
        if st.multiLineField = "ORIGINAL" then
          some { c with OriginalCode := joinLines st.multiLineContent }
        else if st.multiLineField = "FIX" then
          some { c with SuggestFix := joinLines st.multiLineContent }
        else some c
      | none => none,  -- unreachable: a block is only opened when current ≠ nil
    inMultiLine := false, multiLineField := "", multiLineContent := [] }

/-- The `"---"` branch of the parsing loop: flush the previous record when
it has a non-empty title and start a fresh one. -/
def startRecord (file : String) (st : PState) : PState :=
  { st with
    suggestions :=
      match st.current with
      | some c => if c.Title ≠ "" then st.suggestions ++ [c] else st.suggestions
      | none => st.suggestions,
    current := some (emptySuggestion file), lastField := "" }

/-- The in-record part of the parsing loop (the `"<<<"` check and the
field-prefix chain), reached when `st.current = some c`. -/
def parseField (st : PState) (c : Suggestion) (line : String) : PState :=
  if line = "<<<" then
    { st with multiLineField := st.lastField, inMultiLine := true,
              multiLineContent := [] }
  else if hasPrefixGo line "LINE:" then
        { st with current := some { c with Line := parseIntValue line "LINE:" } }
      else if hasPrefixGo line "END_LINE:" then
        { st with current := some { c with EndLine := parseIntValue line "END_LINE:" } }
      else if hasPrefixGo line "SEVERITY:" then
        { st with current := some { c with Severity := parseStringValue line "SEVERITY:" } }
      else if hasPrefixGo line "CONFIDENCE:" then
        { st with current := some { c with Confidence := parseStringValue line "CONFIDENCE:" } }
      else if hasPrefixGo line "CATEGORY:" then
        { st with current := some { c with Category := parseStringValue line "CATEGORY:" } }
      else if hasPrefixGo line "TITLE:" then
        { st with current := some { c with Title := parseStringValue line "TITLE:" } }
      else if hasPrefixGo line "DESCRIPTION:" then
        { st with current := some { c with Description := parseStringValue line "DESCRIPTION:" } }
      else if hasPrefixGo line "ORIGINAL:" then
        -- `rest := parseStringValue(line, "ORIGINAL:")` in the source
        { st with
          lastField := "ORIGINAL",
          current := some (
            if parseStringValue line "ORIGINAL:" ≠ "" ∧
                parseStringValue line "ORIGINAL:" ≠ "N/A" then
              { c with OriginalCode := parseStringValue line "ORIGINAL:" }
            else if parseStringValue line "ORIGINAL:" = "N/A" then
              { c with OriginalCode := "" }
            else c) }
      else if hasPrefixGo line "FIX:" then
        { st with
          lastField := "FIX",
          current := some (
            if parseStringValue line "FIX:" ≠ "" ∧
                parseStringValue line "FIX:" ≠ "N/A" then
              { c with SuggestFix := parseStringValue line "FIX:" }
            else if parseStringValue line "FIX:" = "N/A" then
              { c with SuggestFix := "" }
            else c) }
      else st

/-- One iteration of the `for _, line := range lines` loop of
`parseStructuredResponse`, translated branch for branch: block close,
block accumulation, record separator, and (when a record is open) the
in-record field handling of `parseField`. -/
def parseLine (file : String) (st : PState) (line : String) : PState :=
  if st.inMultiLine ∧ line = ">>>" then closeBlock st
  else if st.inMultiLine then
    -- accumulate multi-line content
    { st with multiLineContent := st.multiLineContent ++ [line] }
  else if line = "---" then startRecord file st
  else
    match st.current with
    | none => st
    | some c => parseField st c line

/-- The end-of-input flush of `parseStructuredResponse` ("Don't forget the
last one"): append the current record when it has a non-empty title. -/
def flushPState (st : PState) : List Suggestion :=
  st.suggestions ++
    (match st.current with
     | some c => if c.Title ≠ "" then [c] else []
     | none => [])

/-- Function `parseStructuredResponse(response, file)` from `part_004`. -/
def parseStructuredResponse (response file : String) : List Suggestion :=
  flushPState ((splitLines response).foldl (parseLine file) initPState)

/-- Function `parseReviewResponse(response, file)` from `part_004`.  The Go function
returns `([]Suggestion, error)` and never produces a non-nil error; it is
embedded with an `Except` result to make that observable. -/
def parseReviewResponse (response file : String) :
    Except String (List Suggestion) :=
  if response = "NO_ISSUES" ∨ response = "" then Except.ok []
  else Except.ok (parseStructuredResponse response file)

/-! ### The patch applier (`applyFix`, internal/ui/session.go) -/

/-- Function `applyFix` from internal/ui/session.go, with the file system made
explicit: `content` is what `os.ReadFile(sug.File)` returned, and the
result is `some newContent` when the fix applies (the Go code then writes
`newContent` back and stages the file) and `none` when the operation
reports failure (the Go code performs no write).  The guard order follows
the source: sentinel checks on the fix and original snippets, then the
`strings.Contains` check, then the first-occurrence replacement, then the
no-op check. -/
def applyFix (sug : Suggestion) (content : String) : Option String :=
  if sug.SuggestFix = "" ∨ sug.SuggestFix = "N/A" then none
  else if sug.OriginalCode = "" ∨ sug.OriginalCode = "N/A" then none
  else if containsSub content.data sug.OriginalCode.data = false then none
  -- `newContent := strings.Replace(fileContent, sug.OriginalCode, sug.SuggestFix, 1)`
  else if String.mk (replaceFirstL sug.OriginalCode.data sug.SuggestFix.data content.data)
      = content then none
  else some (String.mk (replaceFirstL sug.OriginalCode.data sug.SuggestFix.data content.data))

/-! ### The session engine (`Run`, internal/ui/session.go) -/

/-- Type `Action` from internal/ui/session.go. -/
inductive SessionAction where
  | commit
  | abort
  | rereview
deriving Repr, DecidableEq

/-- Structure `SessionOutcome` from internal/ui/session.go. -/
structure SessionOutcome where
  Action : SessionAction
  Fixed : Nat
  Skipped : Nat
deriving Repr, DecidableEq

/-- Model of `strings.TrimSpace(strings.ToLower(input))`, the normalisation `Run`
applies to every line read from the terminal. -/
def trimLower (s : String) : String :=
  trimSpace (toLowerStr s)

/-- The `remaining` count printed by `printSummary`:
`total - fixed - skipped` (internal/ui/session.go). -/
def remainingCount (total fixed skipped : Nat) : Nat :=
  total - fixed - skipped

/-- The main loop of `Run` (internal/ui/session.go), with the terminal and
the file system made explicit.  `inputs` is the stream of lines produced by
`reader.ReadString('\n')` (each including its trailing newline);
`patchOk i` tells whether `applyFix` succeeds on suggestion `i` (a function
of the suggestion and the on-disk file).  An exhausted stream models
end-of-input: the failed read inside the loop prints an error and advances
(`s.current++`), and the failed read at the commit prompt yields the empty
string, which falls to the `default` (abort) branch. -/
def sessionLoop (total : Nat) (patchOk : Nat → Bool)
    (current fixed skipped : Nat) (inputs : List String) : SessionOutcome :=
  if _h : current < total then
      match inputs with
      | [] =>
        -- read error: `s.current++; continue`
        sessionLoop total patchOk (current + 1) fixed skipped []
      | input :: rest =>
        let t := trimLower input
        if t = "f" ∨ t = "fix" then
          if patchOk current then
            sessionLoop total patchOk (current + 1) (fixed + 1) skipped rest
          else
            -- "Could not apply fix automatically" — confirm skip with the
            -- next line (the empty string at end of input)
            match rest with
            | [] =>
              if trimLower "" = "y" then
                sessionLoop total patchOk (current + 1) fixed (skipped + 1) []
              else
                sessionLoop total patchOk current fixed skipped []
            | confirm :: rest' =>
              if trimLower confirm = "y" then
                sessionLoop total patchOk (current + 1) fixed (skipped + 1) rest'
              else
                sessionLoop total patchOk current fixed skipped rest'
        else if t = "s" ∨ t = "skip" then
          sessionLoop total patchOk (current + 1) fixed (skipped + 1) rest
        else if t = "v" ∨ t = "view" then
          -- view diff, do not advance
          sessionLoop total patchOk current fixed skipped rest
        else if t = "q" ∨ t = "quit" then
          ⟨SessionAction.abort, fixed, skipped⟩
        else
          -- invalid option, re-prompt
          sessionLoop total patchOk current fixed skipped rest
    else
      -- summary printed, then the commit prompt
      let input := match inputs with | [] => "" | i :: _ => i
      let t := trimLower input
      if t = "y" ∨ t = "yes" then ⟨SessionAction.commit, fixed, skipped⟩
      else if t = "r" ∨ t = "re-review" then ⟨SessionAction.rereview, fixed, skipped⟩
      else ⟨SessionAction.abort, fixed, skipped⟩
termination_by inputs.length + (total - current)
decreasing_by
  all_goals simp_wf
  all_goals omega

/-- Function `Run` from internal/ui/session.go: a session over `total` suggestions
(`total = len(s.suggestions)`) returns `{ActionCommit, 0, 0}` immediately
when there is nothing to review, and otherwise enters the loop at
suggestion 0 with zero counters. -/
def Run (total : Nat) (patchOk : Nat → Bool) (inputs : List String) :
    SessionOutcome :=
  if total = 0 then ⟨SessionAction.commit, 0, 0⟩
  else sessionLoop total patchOk 0 0 0 inputs

/-! ### Go's `filepath.Match` glob matcher, as consumed by cmd/review.go

`shouldIgnoreFile` calls `filepath.Match` and ignores the returned
`ErrBadPattern` (at most logging it), using only the boolean; whenever Go
returns an error the boolean is `false`.  The embedding below therefore
collapses the error into `false`, which is observationally exactly what
the caller sees.  (Inside `Match`, a chunk's syntax errors depend only on
the chunk, never on the name, so an error always fires at the first
`matchChunk` call and collapsing it never changes the boolean.)  The
functions use a fuel argument for termination; `pathMatch` supplies
`pattern.length + name.length + 8` fuel, which bounds the number of steps
(each loop iteration consumes at least one pattern or name character). -/

/-- The leading-star scan of Go's `scanChunk`: strip leading `*`s,
reporting whether any was present. -/
def stripStars : List Char → Bool × List Char
  | '*' :: r => (true, (stripStars r).2)
  | l => (false, l)

/-- The chunk scan of Go's `scanChunk`: split off the segment up to the
next top-level (outside `[...]`) `*`, honouring `\\`-escapes. -/
def scanBody (inrange : Bool) : List Char → List Char × List Char
  | [] => ([], [])
  | '\\' :: c :: r =>
    let p := scanBody inrange r
    ('\\' :: c :: p.1, p.2)
  | ['\\'] => (['\\'], [])
  | '[' :: r =>
    let p := scanBody true r
    ('[' :: p.1, p.2)
  | ']' :: r =>
    let p := scanBody false r
    (']' :: p.1, p.2)
  | '*' :: r =>
    if inrange then
      let p := scanBody inrange r
      ('*' :: p.1, p.2)
    else ([], '*' :: r)
  | c :: r =>
    let p := scanBody inrange r
    (c :: p.1, p.2)

/-- Go's `getEsc`: read one (possibly `\\`-escaped) character of a
character class; `none` is `ErrBadPattern` (empty class tail, a bare `-`
or `]`, a trailing escape, or a class that ends right after the
character). -/
def getEsc : List Char → Option (Char × List Char)
  | [] => none
  | '-' :: _ => none
  | ']' :: _ => none
  | ['\\'] => none
  | '\\' :: c :: rest => if rest.isEmpty then none else some (c, rest)
  | c :: rest => if rest.isEmpty then none else some (c, rest)

/-- The range-parsing loop of Go's `matchChunk` `[...]` case: fold over the
`lo-hi` ranges, accumulating whether `r` fell in any; `none` is
`ErrBadPattern`. -/
def parseRanges (fuel : Nat) (r : Char) (matched : Bool) (nrange : Nat)
    (chunk : List Char) : Option (Bool × List Char) :=
  match fuel with
  | 0 => none
  | fuel + 1 =>
    match chunk with
    | ']' :: rest =>
      if nrange > 0 then some (matched, rest)
      else none  -- `getEsc` on `]` is ErrBadPattern
    | _ =>
      match getEsc chunk with
      | none => none
      | some (lo, chunk₁) =>
        match chunk₁ with
        | '-' :: chunk₂ =>
          match getEsc chunk₂ with
          | none => none
          | some (hi, chunk₃) =>
            parseRanges fuel r (matched || (lo ≤ r && r ≤ hi)) (nrange + 1) chunk₃
        | _ =>
          parseRanges fuel r (matched || (lo ≤ r && r ≤ lo)) (nrange + 1) chunk₁

/-- Go's `matchChunk`: match a star-free chunk at the head of `s`,
returning the remainder on success.  `failed` mirrors the Go local of the
same name: once set, the chunk is still traversed (so syntax is still
validated) but no characters of `s` are consumed. -/
def matchChunk (fuel : Nat) (chunk s : List Char) (failed : Bool) :
    Option (List Char) :=
  match fuel with
  | 0 => none
  | fuel + 1 =>
    match chunk with
    | [] => if failed then none else some s
    | '[' :: chunkRest =>
      let fs := failed || s.isEmpty
      let rs : Char × List Char :=
        match fs, s with
        | false, ch :: st => (ch, st)
        | _, _ => ('\x00', s)
      let negChunk : Bool × List Char :=
        match chunkRest with
        | '^' :: c₁ => (true, c₁)
        | _ => (false, chunkRest)
      match parseRanges fuel rs.1 false 0 negChunk.2 with
      | none => none
      | some (m, chunk₂) => matchChunk fuel chunk₂ rs.2 (fs || (m == negChunk.1))
    | '?' :: chunkRest =>
      let fs := failed || s.isEmpty
      match fs, s with
      | false, ch :: st => matchChunk fuel chunkRest st (fs || (ch == '/'))
      | _, _ => matchChunk fuel chunkRest s fs
    | '\\' :: chunkRest =>
      -- a trailing escape is ErrBadPattern; otherwise fall through to a
      -- literal comparison with the escaped character
      (match chunkRest with
       | [] => none
       | c :: chunkRest' =>
         let fs := failed || s.isEmpty
         match fs, s with
         | false, sh :: st => matchChunk fuel chunkRest' st (fs || (c != sh))
         | _, _ => matchChunk fuel chunkRest' s fs)
    | c :: chunkRest =>
      let fs := failed || s.isEmpty
      match fs, s with
      | false, sh :: st => matchChunk fuel chunkRest st (fs || (c != sh))
      | _, _ => matchChunk fuel chunkRest s fs

mutual

/-- The main loop of Go's `Match` (`goMatch`) together with its
star-backtracking inner loop (`tryStar`), with the error collapsed into
`false` as explained above. -/
def goMatch (fuel : Nat) (pattern name : List Char) : Bool :=
  match fuel with
  | 0 => false
  | fuel + 1 =>
    match pattern with
    | [] => name.isEmpty
    | _ :: _ =>
      let sp := stripStars pattern
      let star := sp.1
      let cr := scanBody false sp.2
      let chunk := cr.1
      let rest := cr.2
      if star ∧ chunk = [] then
        -- trailing `*` matches the rest unless it contains a separator
        !(name.contains '/')
      else
        match matchChunk (chunk.length + 8) chunk name false with
        | some t =>
          if t.isEmpty || !rest.isEmpty then goMatch fuel rest t
          else if star then tryStar fuel chunk rest name
          else false
        | none =>
          if star then tryStar fuel chunk rest name
          else false

/-- The backtracking loop of Go's `Match`: skip one non-separator name
character at a time and retry the chunk. -/
def tryStar (fuel : Nat) (chunk rest nm : List Char) : Bool :=
  match fuel with
  | 0 => false
  | fuel + 1 =>
    match nm with
    | [] => false
    | c :: cs =>
      if c = '/' then false
      else
        match matchChunk (chunk.length + 8) chunk cs false with
        | some t =>
          if rest.isEmpty && !t.isEmpty then tryStar fuel chunk rest cs
          else goMatch fuel rest t
        | none => tryStar fuel chunk rest cs
end

/-- Model of `filepath.Match(pattern, name)` as consumed by `shouldIgnoreFile`:
the boolean result, with `ErrBadPattern` collapsed into `false`. -/
def pathMatch (pattern name : String) : Bool :=
  goMatch (pattern.length + name.length + 8) pattern.data name.data

/-! ### The change filter (cmd/review.go) -/

/-- Structure `FileChange` from internal/git (declared outside src/; its fields are
read off the consumers in `part_004` and cmd/review.go: path, status, old
path, unified diff, full staged content, binary flag). -/
structure FileChange where
  Path : String
  Status : String
  OldPath : String
  Diff : String
  Content : String
  IsBinary : Bool
deriving Repr, DecidableEq

/-- Model of `filepath.ToSlash`: the embedding models a Unix host, where the path
separator is already `/` and `ToSlash` is the identity. -/
def toSlash (s : String) : String := s

/-- Model of `filepath.Base`: strip trailing slashes and keep the last path
component; the empty path gives `"."` and an all-slash path gives `"/"`. -/
def basename (s : String) : String :=
  if s = "" then "."
  else
    let stripped := (s.data.reverse.dropWhile (· = '/')).reverse
    let last := (stripped.reverse.takeWhile (· ≠ '/')).reverse
    if last.isEmpty then "/" else String.mk last

/-- Go `strings.HasSuffix`. -/
def hasSuffixGo (s suf : String) : Bool :=
  suf.data.isSuffixOf s.data

/-- Drop the last `n` characters of a string (Go slicing `s[:len(s)-n]`). -/
def strDropRight (s : String) (n : Nat) : String :=
  String.mk (s.data.take (s.data.length - n))

/-- Drop the first `n` characters of a string (Go slicing `s[n:]`). -/
def strDrop (s : String) (n : Nat) : String :=
  String.mk (s.data.drop n)

/-- Function `shouldIgnoreFile(filePath, patterns)` from cmd/review.go, translated
check for check: full-path glob match, basename glob match, the `dir/*`
directory rule, and the `**/`-prefixed recursive rules.  The verbose
logging of malformed patterns is a side effect with no influence on the
result and is dropped. -/
def shouldIgnoreFile (filePath : String) (patterns : List String) : Bool :=
  let normalizedPath := toSlash filePath
  let baseName := basename filePath
  patterns.any fun pattern =>
    let np := toSlash pattern
    pathMatch np normalizedPath ||
    pathMatch np baseName ||
    (if hasSuffixGo np "/*" then
      let dir := strDropRight np 2
      hasPrefixGo normalizedPath (dir ++ "/") ||
      containsStr normalizedPath ("/" ++ dir ++ "/")
     else false) ||
    (if containsStr np "**" then
      if hasPrefixGo np "**/" then
        let suffix := strDrop np 3
        if hasSuffixGo suffix "/*" then
          let dir := strDropRight suffix 2
          containsStr normalizedPath ("/" ++ dir ++ "/") ||
          hasPrefixGo normalizedPath (dir ++ "/")
        else
          pathMatch suffix baseName
      else false
     else false)

/-- The filtering loop of `runReview` (cmd/review.go lines 61–78): drop
ignored files and files whose staged content exceeds `maxFileSize`,
keeping the rest in order.  `maxFileSize` is the effective limit (the
caller substitutes a 100000-byte default for a zero configuration value
before this loop). -/
def filterChanges (changes : List FileChange) (ignorePatterns : List String)
    (maxFileSize : Int) : List FileChange :=
  changes.foldl
    (fun acc change =>
      if shouldIgnoreFile change.Path ignorePatterns then acc
      else if (change.Content.length : Int) > maxFileSize then acc
      else acc ++ [change])
    []

/-! ### The review orchestrator (`Review`, `part_004`) -/

/-- One iteration of the loop of `Review(changes)` from `part_004`, with
the assistant made explicit.  `chat change` stands for
`r.client.Chat(r.model, buildReviewPrompt(change, …))`: the opaque
request→text assistant collaborator, returning either the complete reply
text or a transport error.  The path is recorded unconditionally, binary
files are skipped, a failed call is reported and skipped, and otherwise
the parsed suggestions are appended.  The Go function's `error` result is
always nil and is omitted. -/
def reviewStep (chat : FileChange → Except String String)
    (result : ReviewResult) (change : FileChange) : ReviewResult :=
  let result := { result with Files := result.Files ++ [change.Path] }
  if change.IsBinary then result
  else
    match chat change with
    | Except.error _ => result
    | Except.ok response =>
      match parseReviewResponse response change.Path with
      | Except.error _ => result
      | Except.ok suggestions =>
        { result with Suggestions := result.Suggestions ++ suggestions }

/-- The whole orchestration loop of `Review`. -/
def Review (chat : FileChange → Except String String)
    (changes : List FileChange) : ReviewResult :=
  changes.foldl (reviewStep chat) ⟨[], [], ""⟩

/-- What one file contributes to the aggregated suggestion list: nothing
when it is binary or its assistant call fails, its parsed suggestions
otherwise. -/
def fileSuggestions (chat : FileChange → Except String String)
    (change : FileChange) : List Suggestion :=
  if change.IsBinary then []
  else
    match chat change with
    | Except.error _ => []
    | Except.ok response =>
      match parseReviewResponse response change.Path with
      | Except.error _ => []
      | Except.ok suggestions => suggestions

/-! ### A parser variant following the specification's words (for C6)

The specification (§4.3) says a `<<<` line transitions to the in-block
state only when it *immediately follows* an `ORIGINAL:` or `FIX:` field
line.  The machine below is modelled from those words, to be compared with
the source's `parseStructuredResponse`; everything except the `<<<` rule
is kept identical to the source. -/

/-- State of the spec-worded machine: as `PState`, but instead of the
source's sticky `lastField` it tracks `prevOpener`, which holds the opened
field only when the immediately preceding line was an `ORIGINAL:`/`FIX:`
field line, and a block field that is always one of the two openers. -/
structure SpecC6State where
  suggestions : List Suggestion
  current : Option Suggestion
  blockField : String
  blockContent : List String
  inBlock : Bool
  prevOpener : Option String
deriving Repr, DecidableEq

/-- Initial state of the spec-worded machine. -/
def initSpecC6 : SpecC6State :=
  ⟨[], none, "", [], false, none⟩

/-- One line of the spec-worded machine: identical to `parseLine` except
that `<<<` enters a block only when the immediately preceding line was an
`ORIGINAL:` or `FIX:` field line (and is otherwise ignored), and the
block's content is written to exactly the remembered field. -/
def specC6Line (file : String) (st : SpecC6State) (line : String) : SpecC6State :=
  if st.inBlock ∧ line = ">>>" then
    let content := joinLines st.blockContent
    let current' :=
      match st.current with
      | some c =>
        if st.blockField = "ORIGINAL" then some { c with OriginalCode := content }
        else if st.blockField = "FIX" then some { c with SuggestFix := content }
        else some c
      | none => none
    { st with current := current', inBlock := false,
              blockField := "", blockContent := [], prevOpener := none }
  else if st.inBlock then
    { st with blockContent := st.blockContent ++ [line] }
  else if line = "---" then
    let suggestions' :=
      match st.current with
      | some c => if c.Title ≠ "" then st.suggestions ++ [c] else st.suggestions
      | none => st.suggestions
    { st with suggestions := suggestions',
              current := some (emptySuggestion file), prevOpener := none }
  else
    match st.current with
    | none => st
    | some c =>
      if line = "<<<" then
        match st.prevOpener with
        | some f =>
          { st with blockField := f, inBlock := true, blockContent := [],
                    prevOpener := none }
        | none => { st with prevOpener := none }
      else if hasPrefixGo line "LINE:" then
        { st with current := some { c with Line := parseIntValue line "LINE:" },
                  prevOpener := none }
      else if hasPrefixGo line "END_LINE:" then
        { st with current := some { c with EndLine := parseIntValue line "END_LINE:" },
                  prevOpener := none }
      else if hasPrefixGo line "SEVERITY:" then
        { st with current := some { c with Severity := parseStringValue line "SEVERITY:" },
                  prevOpener := none }
      else if hasPrefixGo line "CONFIDENCE:" then
        { st with current := some { c with Confidence := parseStringValue line "CONFIDENCE:" },
                  prevOpener := none }
      else if hasPrefixGo line "CATEGORY:" then
        { st with current := some { c with Category := parseStringValue line "CATEGORY:" },
                  prevOpener := none }
      else if hasPrefixGo line "TITLE:" then
        { st with current := some { c with Title := parseStringValue line "TITLE:" },
                  prevOpener := none }
      else if hasPrefixGo line "DESCRIPTION:" then
        { st with current := some { c with Description := parseStringValue line "DESCRIPTION:" },
                  prevOpener := none }
      else if hasPrefixGo line "ORIGINAL:" then
        let rest := parseStringValue line "ORIGINAL:"
        let c' :=
          if rest ≠ "" ∧ rest ≠ "N/A" then { c with OriginalCode := rest }
          else if rest = "N/A" then { c with OriginalCode := "" }
          else c
        { st with current := some c', prevOpener := some "ORIGINAL" }
      else if hasPrefixGo line "FIX:" then
        let rest := parseStringValue line "FIX:"
        let c' :=
          if rest ≠ "" ∧ rest ≠ "N/A" then { c with SuggestFix := rest }
          else if rest = "N/A" then { c with SuggestFix := "" }
          else c
        { st with current := some c', prevOpener := some "FIX" }
      else { st with prevOpener := none }

/-- End-of-input flush of the spec-worded machine. -/
def flushSpecC6 (st : SpecC6State) : List Suggestion :=
  st.suggestions ++
    (match st.current with
     | some c => if c.Title ≠ "" then [c] else []
     | none => [])

/-- The whole spec-worded parser for claim C6. -/
def parseStructuredResponseSpecC6 (response file : String) : List Suggestion :=
  flushSpecC6 ((splitLines response).foldl (specC6Line file) initSpecC6)

/-- The state reached after a closed `<<< ... >>>` block, as the source
behaves: the newline-join of the block's lines is written to the field
named by the sticky `lastField` local (`ORIGINAL:`/`FIX:`, or discarded
when no opener was seen in the record), and the machine returns to the
in-record state. -/
def afterBlock (st : PState) (content : String) : PState :=
  { st with
    current :=
      match st.current with
      | some c =>
        if st.lastField = "ORIGINAL" then some { c with OriginalCode := content }
        else if st.lastField = "FIX" then some { c with SuggestFix := content }
        else some c
      | none => none,
    inMultiLine := false, multiLineField := "", multiLineContent := [] }

/-! ### Helper lemmas -/

/-- Invariant preservation along the parsing loop: a state property `P`
preserved by every `parseLine` step on lines satisfying `Q` holds after
folding over any list of such lines. -/
theorem foldl_parseLine_preserve {P : PState → Prop} {Q : String → Prop}
    (file : String)
    (hstep : ∀ st l, P st → Q l → P (parseLine file st l)) :
    ∀ (lines : List String) (st : PState), P st → (∀ l ∈ lines, Q l) →
      P (lines.foldl (parseLine file) st) := by
  intro lines
  induction lines with
  | nil => intro st hP _; simpa using hP
  | cons l ls ih =>
    intro st hP hQ
    simp only [List.foldl_cons]
    exact ih _ (hstep st l hP (hQ l (by simp))) (fun x hx => hQ x (by simp [hx]))

/-- A list occurring at an explicit decomposition is found by
`containsSub` (Go `strings.Contains`). -/
theorem containsSub_append (pre o suf : List Char) :
    containsSub (pre ++ o ++ suf) o = true := by
  induction pre with
  | nil =>
    rw [containsSub.eq_def]
    have : o.isPrefixOf ([] ++ o ++ suf) = true := by
      simp [List.isPrefixOf_iff_prefix]
    simp [this]
  | cons c t ih =>
    rw [show (c :: t) ++ o ++ suf = c :: (t ++ o ++ suf) by simp]
    rw [containsSub.eq_def]
    split
    · rfl
    · simpa using ih

/-- Unfolding equation for `replaceFirstL` that does not case on the
shape of `s`. -/
theorem replaceFirstL_eq (o f s : List Char) :
    replaceFirstL o f s =
      if o.isPrefixOf s then f ++ s.drop o.length
      else
        match s with
        | [] => []
        | c :: t => c :: replaceFirstL o f t := by
  cases s <;> rfl

/-- The function `replaceFirstL` replaces exactly the leftmost occurrence: if `s`
decomposes as `pre ++ o ++ suf` with `pre` of minimal length among all
such decompositions, the result is `pre ++ f ++ suf`. -/
theorem replaceFirstL_leftmost (o f : List Char) :
    ∀ (pre suf : List Char),
      (∀ pre' suf', pre ++ o ++ suf = pre' ++ o ++ suf' →
        pre.length ≤ pre'.length) →
      replaceFirstL o f (pre ++ o ++ suf) = pre ++ f ++ suf := by
  intro pre
  induction pre with
  | nil =>
    intro suf _
    rw [List.nil_append, replaceFirstL_eq]
    have hp : o.isPrefixOf (o ++ suf) = true := by
      simp [List.isPrefixOf_iff_prefix]
    simp [hp, List.drop_left]
  | cons c t ih =>
    intro suf hmin
    have hnp : o.isPrefixOf (c :: (t ++ o ++ suf)) = false := by
      rcases hP : o.isPrefixOf (c :: (t ++ o ++ suf)) with _ | _
      · rfl
      · exfalso
        have hpre : o <+: c :: (t ++ o ++ suf) :=
          List.isPrefixOf_iff_prefix.mp hP
        rcases hpre with ⟨r, hr⟩
        have hdec : (c :: t) ++ o ++ suf = [] ++ o ++ r := by
          simpa using hr.symm
        have := hmin [] r hdec
        simp at this
    rw [show (c :: t) ++ o ++ suf = c :: (t ++ o ++ suf) by simp]
    rw [replaceFirstL_eq]
    simp only [hnp, Bool.false_eq_true, if_false]
    have hmin' : ∀ pre' suf', t ++ o ++ suf = pre' ++ o ++ suf' →
        t.length ≤ pre'.length := by
      intro pre' suf' hdec
      have hdec' : (c :: t) ++ o ++ suf = (c :: pre') ++ o ++ suf' := by
        simp [hdec]
      have := hmin (c :: pre') suf' hdec'
      simpa using this
    rw [ih suf hmin']
    simp

/-- The filtering loop of `runReview` is a `List.filter`: it keeps, in
order, exactly the files that are neither ignored nor oversized. -/
theorem filterChanges_eq_filter (ignorePatterns : List String)
    (maxFileSize : Int) :
    ∀ (changes : List FileChange) (acc : List FileChange),
      changes.foldl
        (fun acc change =>
          if shouldIgnoreFile change.Path ignorePatterns then acc
          else if (change.Content.length : Int) > maxFileSize then acc
          else acc ++ [change])
        acc =
      acc ++ changes.filter
        (fun c => !shouldIgnoreFile c.Path ignorePatterns &&
          decide ((c.Content.length : Int) ≤ maxFileSize)) := by
  intro changes
  induction changes with
  | nil => intro acc; simp
  | cons c cs ih =>
    intro acc
    simp only [List.foldl_cons, List.filter_cons]
    rcases hig : shouldIgnoreFile c.Path ignorePatterns with _ | _
    · rcases hsz : decide ((c.Content.length : Int) ≤ maxFileSize) with _ | _
      · have hgt : (c.Content.length : Int) > maxFileSize := by
          have := of_decide_eq_false hsz
          omega
        simp [hig, hgt, ih]
      · have hle : (c.Content.length : Int) ≤ maxFileSize := of_decide_eq_true hsz
        have hgt : ¬((c.Content.length : Int) > maxFileSize) := by omega
        simp [hig, hgt, ih, hsz]
    · simp [hig, ih]

/-- While a `<<< ... >>>` block is open, the parsing loop only accumulates
the lines into `multiLineContent`; every other component of the state is
untouched until a closing `>>>` arrives. -/
theorem foldl_parseLine_inBlock (file : String) :
    ∀ (body : List String) (st : PState),
      st.inMultiLine = true → ">>>" ∉ body →
      body.foldl (parseLine file) st =
        { st with multiLineContent := st.multiLineContent ++ body } := by
  intro body
  induction body with
  | nil => intro st _ _; simp
  | cons l ls ih =>
    intro st hin hmem
    have hl : l ≠ ">>>" := fun e => hmem (by simp [e])
    have hstep : parseLine file st l =
        { st with multiLineContent := st.multiLineContent ++ [l] } := by
      unfold parseLine
      rw [if_neg (by simp [hl]), if_pos hin]
    simp only [List.foldl_cons, hstep]
    rw [ih { st with multiLineContent := st.multiLineContent ++ [l] }
      (by simpa using hin) (fun e => hmem (by simp [e]))]
    simp

/-- Case helper: a property of the `suggestions` component distributes
over an `if` between parser states. -/
theorem ite_pstate_sugg (P : Prop) [Decidable P] (a b : PState)
    (s : List Suggestion) (ha : P → a.suggestions = s) (hb : ¬P → b.suggestions = s) :
    (if P then a else b).suggestions = s := by
  by_cases h : P
  · rw [if_pos h]; exact ha h
  · rw [if_neg h]; exact hb h

/-- Case helper: a projected property of the `current` record distributes
over an `if` between parser states. -/
theorem ite_pstate_cur (P : Prop) [Decidable P] (a b : PState) {α : Type}
    (f : Suggestion → α) (v : α)
    (ha : P → ∀ x, a.current = some x → f x = v)
    (hb : ¬P → ∀ x, b.current = some x → f x = v) :
    ∀ x, (if P then a else b).current = some x → f x = v := by
  by_cases h : P
  · rw [if_pos h]; exact ha h
  · rw [if_neg h]; exact hb h

/-- Case helper: the `lastField` component distributes over an `if`
between parser states. -/
theorem ite_pstate_last (P : Prop) [Decidable P] (a b : PState)
    (v : String) (ha : P → a.lastField = v) (hb : ¬P → b.lastField = v) :
    (if P then a else b).lastField = v := by
  by_cases h : P
  · rw [if_pos h]; exact ha h
  · rw [if_neg h]; exact hb h

/-- The `parseField` step never touches the list of emitted suggestions. -/
theorem parseField_suggestions (st : PState) (c : Suggestion) (line : String) :
    (parseField st c line).suggestions = st.suggestions := by
  unfold parseField
  iterate 10 refine ite_pstate_sugg _ _ _ _ (fun _ => rfl) (fun _ => ?_)
  rfl

/-- On a line that does not carry an `END_LINE:` field, `parseField`
preserves a zero `EndLine` of the record under construction. -/
theorem parseField_endline (st : PState) (c : Suggestion) (line : String)
    (hQ : hasPrefixGo line "END_LINE:" = false) (hsc : st.current = some c)
    (hc : c.EndLine = 0) :
    ∀ x, (parseField st c line).current = some x → x.EndLine = 0 := by
  unfold parseField
  refine ite_pstate_cur _ _ _ Suggestion.EndLine 0 (fun _ => ?_) (fun _ => ?_)
  · intro x hx
    have hx' : st.current = some x := hx
    rw [hsc] at hx'
    exact (Option.some.inj hx') ▸ hc
  refine ite_pstate_cur _ _ _ Suggestion.EndLine 0 (fun _ => ?_) (fun _ => ?_)
  · intro x hx; exact (Option.some.inj hx) ▸ hc
  refine ite_pstate_cur _ _ _ Suggestion.EndLine 0
    (fun h => absurd h (by simp [hQ])) (fun _ => ?_)
  iterate 5 (refine ite_pstate_cur _ _ _ Suggestion.EndLine 0 (fun _ => ?_) (fun _ => ?_)
             · intro x hx; exact (Option.some.inj hx) ▸ hc)
  iterate 2 (refine ite_pstate_cur _ _ _ Suggestion.EndLine 0 (fun _ => ?_) (fun _ => ?_)
             · intro x hx
               have e := Option.some.inj hx
               subst e
               split_ifs <;> exact hc)
  intro x hx
  have hx' : st.current = some x := hx
  rw [hsc] at hx'
  exact (Option.some.inj hx') ▸ hc

/-- The `parseField` step preserves the `File` of the record under construction. -/
theorem parseField_file (st : PState) (c : Suggestion) (line : String) (file : String)
    (hsc : st.current = some c) (hc : c.File = file) :
    ∀ x, (parseField st c line).current = some x → x.File = file := by
  unfold parseField
  refine ite_pstate_cur _ _ _ Suggestion.File file (fun _ => ?_) (fun _ => ?_)
  · intro x hx
    have hx' : st.current = some x := hx
    rw [hsc] at hx'
    exact (Option.some.inj hx') ▸ hc
  iterate 7 (refine ite_pstate_cur _ _ _ Suggestion.File file (fun _ => ?_) (fun _ => ?_)
             · intro x hx; exact (Option.some.inj hx) ▸ hc)
  iterate 2 (refine ite_pstate_cur _ _ _ Suggestion.File file (fun _ => ?_) (fun _ => ?_)
             · intro x hx
               have e := Option.some.inj hx
               subst e
               split_ifs <;> exact hc)
  intro x hx
  have hx' : st.current = some x := hx
  rw [hsc] at hx'
  exact (Option.some.inj hx') ▸ hc

/-- The `closeBlock` step preserves the list of emitted suggestions. -/
theorem closeBlock_suggestions (st : PState) :
    (closeBlock st).suggestions = st.suggestions := rfl

/-- The `closeBlock` step only rewrites the `OriginalCode`/`SuggestFix` of the
record under construction: file, line span and title are untouched. -/
theorem closeBlock_current (st : PState) :
    ∀ x, (closeBlock st).current = some x →
      ∃ c, st.current = some c ∧ x.File = c.File ∧ x.EndLine = c.EndLine ∧
        x.Title = c.Title := by
  intro x hx
  cases hcc : st.current with
  | none =>
    exfalso
    have hx' : (closeBlock st).current = none := by
      unfold closeBlock
      simp only
      rw [hcc]
    rw [hx'] at hx
    exact Option.noConfusion hx
  | some c =>
    refine ⟨c, rfl, ?_⟩
    have hx' : (if st.multiLineField = "ORIGINAL" then
          some { c with OriginalCode := joinLines st.multiLineContent }
        else if st.multiLineField = "FIX" then
          some { c with SuggestFix := joinLines st.multiLineContent }
        else some c) = some x := by
      rw [← hx]
      unfold closeBlock
      simp only
      rw [hcc]
    by_cases h1 : st.multiLineField = "ORIGINAL"
    · rw [if_pos h1] at hx'
      exact (Option.some.inj hx') ▸ ⟨rfl, rfl, rfl⟩
    · rw [if_neg h1] at hx'
      by_cases h2 : st.multiLineField = "FIX"
      · rw [if_pos h2] at hx'
        exact (Option.some.inj hx') ▸ ⟨rfl, rfl, rfl⟩
      · rw [if_neg h2] at hx'
        exact (Option.some.inj hx') ▸ ⟨rfl, rfl, rfl⟩

/-- Two field names starting with different characters cannot both be
prefixes of the same line. -/
theorem prefix_head_conflict (l p q : String) (cp cq : Char) {tp tq : List Char}
    (hp : p.data = cp :: tp) (hq : q.data = cq :: tq) (hne : cp ≠ cq)
    (h : hasPrefixGo l p = true) : hasPrefixGo l q = false := by
  rcases hval : hasPrefixGo l q with _ | _
  · rfl
  · exfalso
    unfold hasPrefixGo at h hval
    rcases List.isPrefixOf_iff_prefix.mp h with ⟨t, ht⟩
    rcases List.isPrefixOf_iff_prefix.mp hval with ⟨u, hu⟩
    rw [hp] at ht
    rw [hq] at hu
    have e : (cp :: tp) ++ t = (cq :: tq) ++ u := by rw [ht, hu]
    simp only [List.cons_append, List.cons.injEq] at e
    exact hne e.1

/-- A line carrying neither an `ORIGINAL:` nor a `FIX:` opener leaves the
sticky `lastField` local unchanged. -/
theorem parseField_lastField_pres (st : PState) (c : Suggestion) (line : String)
    (hO : hasPrefixGo line "ORIGINAL:" = false)
    (hF : hasPrefixGo line "FIX:" = false) :
    (parseField st c line).lastField = st.lastField := by
  unfold parseField
  iterate 8 refine ite_pstate_last _ _ _ _ (fun _ => rfl) (fun _ => ?_)
  refine ite_pstate_last _ _ _ _ (fun h => absurd h (by simp [hO])) (fun _ => ?_)
  refine ite_pstate_last _ _ _ _ (fun h => absurd h (by simp [hF])) (fun _ => ?_)
  rfl

/-- An `ORIGINAL:` field line sets `lastField` to `"ORIGINAL"`. -/
theorem parseField_lastField_orig (st : PState) (c : Suggestion) (line : String)
    (hO : hasPrefixGo line "ORIGINAL:" = true) :
    (parseField st c line).lastField = "ORIGINAL" := by
  have hL := prefix_head_conflict line "ORIGINAL:" "LINE:" 'O' 'L' rfl rfl (by decide) hO
  have hE := prefix_head_conflict line "ORIGINAL:" "END_LINE:" 'O' 'E' rfl rfl (by decide) hO
  have hS := prefix_head_conflict line "ORIGINAL:" "SEVERITY:" 'O' 'S' rfl rfl (by decide) hO
  have hCf := prefix_head_conflict line "ORIGINAL:" "CONFIDENCE:" 'O' 'C' rfl rfl (by decide) hO
  have hCa := prefix_head_conflict line "ORIGINAL:" "CATEGORY:" 'O' 'C' rfl rfl (by decide) hO
  have hT := prefix_head_conflict line "ORIGINAL:" "TITLE:" 'O' 'T' rfl rfl (by decide) hO
  have hD := prefix_head_conflict line "ORIGINAL:" "DESCRIPTION:" 'O' 'D' rfl rfl (by decide) hO
  have hlt : ¬(line = "<<<") := fun e => absurd (e ▸ hO) (by decide)
  unfold parseField
  rw [if_neg hlt, if_neg (by simp [hL]), if_neg (by simp [hE]), if_neg (by simp [hS]),
      if_neg (by simp [hCf]), if_neg (by simp [hCa]), if_neg (by simp [hT]),
      if_neg (by simp [hD]), if_pos hO]

/-- A `FIX:` field line sets `lastField` to `"FIX"`. -/
theorem parseField_lastField_fix (st : PState) (c : Suggestion) (line : String)
    (hF : hasPrefixGo line "FIX:" = true) :
    (parseField st c line).lastField = "FIX" := by
  have hL := prefix_head_conflict line "FIX:" "LINE:" 'F' 'L' rfl rfl (by decide) hF
  have hE := prefix_head_conflict line "FIX:" "END_LINE:" 'F' 'E' rfl rfl (by decide) hF
  have hS := prefix_head_conflict line "FIX:" "SEVERITY:" 'F' 'S' rfl rfl (by decide) hF
  have hCf := prefix_head_conflict line "FIX:" "CONFIDENCE:" 'F' 'C' rfl rfl (by decide) hF
  have hCa := prefix_head_conflict line "FIX:" "CATEGORY:" 'F' 'C' rfl rfl (by decide) hF
  have hT := prefix_head_conflict line "FIX:" "TITLE:" 'F' 'T' rfl rfl (by decide) hF
  have hD := prefix_head_conflict line "FIX:" "DESCRIPTION:" 'F' 'D' rfl rfl (by decide) hF
  have hOr := prefix_head_conflict line "FIX:" "ORIGINAL:" 'F' 'O' rfl rfl (by decide) hF
  have hlt : ¬(line = "<<<") := fun e => absurd (e ▸ hF) (by decide)
  unfold parseField
  rw [if_neg hlt, if_neg (by simp [hL]), if_neg (by simp [hE]), if_neg (by simp [hS]),
      if_neg (by simp [hCf]), if_neg (by simp [hCa]), if_neg (by simp [hT]),
      if_neg (by simp [hD]), if_neg (by simp [hOr]), if_pos hF]

/-- In-record, off-separator lines update `lastField` exactly as the
source's sticky local: set by `ORIGINAL:`/`FIX:` openers, untouched by
every other line. -/
theorem parseLine_lastField (file : String) (st : PState) (l : String)
    (c : Suggestion) (hML : st.inMultiLine = false) (hsc : st.current = some c)
    (hsep : l ≠ "---") :
    (parseLine file st l).lastField =
      if hasPrefixGo l "ORIGINAL:" = true then "ORIGINAL"
      else if hasPrefixGo l "FIX:" = true then "FIX"
      else st.lastField := by
  unfold parseLine
  rw [if_neg (by simp [hML]), if_neg (by simp [hML]), if_neg hsep, hsc]
  by_cases hO : hasPrefixGo l "ORIGINAL:" = true
  · rw [if_pos hO]; exact parseField_lastField_orig st c l hO
  · rw [if_neg hO]
    by_cases hF : hasPrefixGo l "FIX:" = true
    · rw [if_pos hF]; exact parseField_lastField_fix st c l hF
    · rw [if_neg hF]
      exact parseField_lastField_pres st c l (by simpa using hO) (by simpa using hF)

/-- A `<<<` line while in-record opens a block bound to the current
`lastField`, whatever it is. -/
theorem parseLine_open (file : String) (st : PState) (c : Suggestion)
    (hML : st.inMultiLine = false) (hsc : st.current = some c) :
    parseLine file st "<<<" =
      { st with multiLineField := st.lastField, inMultiLine := true,
                multiLineContent := [] } := by
  unfold parseLine
  rw [if_neg (by simp [hML]), if_neg (by simp [hML]), if_neg (by decide)]
  conv_lhs => rw [hsc]
  rfl

/-- A `>>>` line while in-block closes the block. -/
theorem parseLine_close (file : String) (st : PState)
    (hML : st.inMultiLine = true) :
    parseLine file st ">>>" = closeBlock st := by
  unfold parseLine
  rw [if_pos ⟨hML, rfl⟩]

/-- The final flush emits only titled records (the source's guard at both
flush sites). -/
theorem flushPState_titles (st : PState)
    (hsug : ∀ s ∈ st.suggestions, s.Title ≠ "") :
    ∀ s ∈ flushPState st, s.Title ≠ "" := by
  intro s hs
  unfold flushPState at hs
  rcases List.mem_append.mp hs with h4 | h4
  · exact hsug s h4
  · cases hcc : st.current with
    | none => rw [hcc] at h4; simp at h4
    | some c =>
      rw [hcc] at h4
      have h5 : s ∈ (if c.Title ≠ "" then [c] else []) := h4
      by_cases ht : c.Title ≠ ""
      · rw [if_pos ht] at h5
        rw [List.mem_singleton] at h5
        subst h5; exact ht
      · rw [if_neg ht] at h5; simp at h5

/-- The final flush emits only suggestions satisfying a property shared by
the emitted list and the record under construction. -/
theorem flushPState_mem (st : PState) (P : Suggestion → Prop)
    (hsug : ∀ s ∈ st.suggestions, P s)
    (hcur : ∀ c, st.current = some c → P c) :
    ∀ s ∈ flushPState st, P s := by
  intro s hs
  unfold flushPState at hs
  rcases List.mem_append.mp hs with h4 | h4
  · exact hsug s h4
  · cases hcc : st.current with
    | none => rw [hcc] at h4; simp at h4
    | some c =>
      rw [hcc] at h4
      have h5 : s ∈ (if c.Title ≠ "" then [c] else []) := h4
      by_cases ht : c.Title ≠ ""
      · rw [if_pos ht] at h5
        rw [List.mem_singleton] at h5
        subst h5; exact hcur _ hcc
      · rw [if_neg ht] at h5; simp at h5

/-- One parsing step preserves "all emitted suggestions are titled". -/
theorem parseLine_titles (file : String) (st : PState) (l : String)
    (h : ∀ s ∈ st.suggestions, s.Title ≠ "") :
    ∀ s ∈ (parseLine file st l).suggestions, s.Title ≠ "" := by
  unfold parseLine
  by_cases h1 : st.inMultiLine = true ∧ l = ">>>"
  · rw [if_pos h1]
    intro s hs
    rw [closeBlock_suggestions] at hs
    exact h s hs
  rw [if_neg h1]
  by_cases h2 : st.inMultiLine = true
  · rw [if_pos h2]; exact fun s hs => h s hs
  rw [if_neg h2]
  by_cases h3 : l = "---"
  · rw [if_pos h3]
    unfold startRecord
    cases hcc : st.current with
    | none => exact fun s hs => h s hs
    | some c =>
      intro s hs
      have hs' : s ∈ (if c.Title ≠ "" then st.suggestions ++ [c] else st.suggestions) := hs
      by_cases ht : c.Title ≠ ""
      · rw [if_pos ht] at hs'
        rcases List.mem_append.mp hs' with h4 | h4
        · exact h s h4
        · rw [List.mem_singleton] at h4; subst h4; exact ht
      · rw [if_neg ht] at hs'; exact h s hs'
  rw [if_neg h3]
  cases hcc : st.current with
  | none => exact fun s hs => h s hs
  | some c =>
    intro s hs
    have hs' : s ∈ (parseField st c l).suggestions := hs
    rw [parseField_suggestions] at hs'
    exact h s hs'

/-- One parsing step on a line without an `END_LINE:` field preserves
"every ending line seen so far is zero". -/
theorem parseLine_endline_step (file : String) (st : PState) (l : String)
    (hQ : hasPrefixGo l "END_LINE:" = false)
    (h : (∀ s ∈ st.suggestions, s.EndLine = 0) ∧
      (∀ c, st.current = some c → c.EndLine = 0)) :
    (∀ s ∈ (parseLine file st l).suggestions, s.EndLine = 0) ∧
    (∀ c, (parseLine file st l).current = some c → c.EndLine = 0) := by
  obtain ⟨hsug, hcur⟩ := h
  unfold parseLine
  by_cases h1 : st.inMultiLine = true ∧ l = ">>>"
  · rw [if_pos h1]
    refine ⟨?_, ?_⟩
    · intro s hs; rw [closeBlock_suggestions] at hs; exact hsug s hs
    · intro x hx
      rcases closeBlock_current st x hx with ⟨c, hc1, _, hEnd, _⟩
      rw [hEnd]; exact hcur c hc1
  rw [if_neg h1]
  by_cases h2 : st.inMultiLine = true
  · rw [if_pos h2]
    exact ⟨fun s hs => hsug s hs, fun x hx => hcur x hx⟩
  rw [if_neg h2]
  by_cases h3 : l = "---"
  · rw [if_pos h3]
    unfold startRecord
    refine ⟨?_, ?_⟩
    · cases hcc : st.current with
      | none => exact fun s hs => hsug s hs
      | some c =>
        intro s hs
        have hs' : s ∈ (if c.Title ≠ "" then st.suggestions ++ [c] else st.suggestions) := hs
        by_cases ht : c.Title ≠ ""
        · rw [if_pos ht] at hs'
          rcases List.mem_append.mp hs' with h4 | h4
          · exact hsug s h4
          · rw [List.mem_singleton] at h4; subst h4; exact hcur s hcc
        · rw [if_neg ht] at hs'; exact hsug s hs'
    · intro x hx
      have hx' : some (emptySuggestion file) = some x := hx
      exact (Option.some.inj hx') ▸ rfl
  rw [if_neg h3]
  cases hcc : st.current with
  | none => exact ⟨fun s hs => hsug s hs, fun x hx => hcur x hx⟩
  | some c =>
    refine ⟨?_, ?_⟩
    · intro s hs
      have hs' : s ∈ (parseField st c l).suggestions := hs
      rw [parseField_suggestions] at hs'
      exact hsug s hs'
    · intro x hx
      exact parseField_endline st c l hQ hcc (hcur c hcc) x hx

/-- One parsing step preserves "every record carries the parsed file's
path". -/
theorem parseLine_file_step (file : String) (st : PState) (l : String)
    (h : (∀ s ∈ st.suggestions, s.File = file) ∧
      (∀ c, st.current = some c → c.File = file)) :
    (∀ s ∈ (parseLine file st l).suggestions, s.File = file) ∧
    (∀ c, (parseLine file st l).current = some c → c.File = file) := by
  obtain ⟨hsug, hcur⟩ := h
  unfold parseLine
  by_cases h1 : st.inMultiLine = true ∧ l = ">>>"
  · rw [if_pos h1]
    refine ⟨?_, ?_⟩
    · intro s hs; rw [closeBlock_suggestions] at hs; exact hsug s hs
    · intro x hx
      rcases closeBlock_current st x hx with ⟨c, hc1, hFile, _, _⟩
      rw [hFile]; exact hcur c hc1
  rw [if_neg h1]
  by_cases h2 : st.inMultiLine = true
  · rw [if_pos h2]
    exact ⟨fun s hs => hsug s hs, fun x hx => hcur x hx⟩
  rw [if_neg h2]
  by_cases h3 : l = "---"
  · rw [if_pos h3]
    unfold startRecord
    refine ⟨?_, ?_⟩
    · cases hcc : st.current with
      | none => exact fun s hs => hsug s hs
      | some c =>
        intro s hs
        have hs' : s ∈ (if c.Title ≠ "" then st.suggestions ++ [c] else st.suggestions) := hs
        by_cases ht : c.Title ≠ ""
        · rw [if_pos ht] at hs'
          rcases List.mem_append.mp hs' with h4 | h4
          · exact hsug s h4
          · rw [List.mem_singleton] at h4; subst h4; exact hcur s hcc
        · rw [if_neg ht] at hs'; exact hsug s hs'
    · intro x hx
      have hx' : some (emptySuggestion file) = some x := hx
      exact (Option.some.inj hx') ▸ rfl
  rw [if_neg h3]
  cases hcc : st.current with
  | none => exact ⟨fun s hs => hsug s hs, fun x hx => hcur x hx⟩
  | some c =>
    refine ⟨?_, ?_⟩
    · intro s hs
      have hs' : s ∈ (parseField st c l).suggestions := hs
      rw [parseField_suggestions] at hs'
      exact hsug s hs'
    · intro x hx
      exact parseField_file st c l file hcc (hcur c hcc) x hx

/-- Every suggestion emitted by the parser has a non-empty title. -/
theorem parseStructuredResponse_titles (response file : String) :
    ∀ s ∈ parseStructuredResponse response file, s.Title ≠ "" := by
  unfold parseStructuredResponse
  refine flushPState_titles _ ?_
  exact foldl_parseLine_preserve
    (P := fun st => ∀ s ∈ st.suggestions, s.Title ≠ "")
    (Q := fun _ => True) file
    (fun st l hP _ => parseLine_titles file st l hP)
    (splitLines response) initPState
    (by intro s hs; simp [initPState] at hs)
    (fun _ _ => trivial)

/-- When no line of the reply carries an `END_LINE:` field, every emitted
suggestion has `EndLine = 0`. -/
theorem parseStructuredResponse_endline (response file : String)
    (hno : ∀ l ∈ splitLines response, hasPrefixGo l "END_LINE:" = false) :
    ∀ s ∈ parseStructuredResponse response file, s.EndLine = 0 := by
  unfold parseStructuredResponse
  have hP := foldl_parseLine_preserve
    (P := fun st => (∀ s ∈ st.suggestions, s.EndLine = 0) ∧
      (∀ c, st.current = some c → c.EndLine = 0))
    (Q := fun l => hasPrefixGo l "END_LINE:" = false) file
    (fun st l hp hq => parseLine_endline_step file st l hq hp)
    (splitLines response) initPState
    ⟨by intro s hs; simp [initPState] at hs,
     by intro c hc; simp [initPState] at hc⟩
    hno
  exact flushPState_mem _ _ hP.1 hP.2

/-- Every suggestion emitted by the parser is anchored to the parsed
file's path. -/
theorem parseStructuredResponse_file_inv (response file : String) :
    ∀ s ∈ parseStructuredResponse response file, s.File = file := by
  unfold parseStructuredResponse
  have hP := foldl_parseLine_preserve
    (P := fun st => (∀ s ∈ st.suggestions, s.File = file) ∧
      (∀ c, st.current = some c → c.File = file))
    (Q := fun _ => True) file
    (fun st l hp _ => parseLine_file_step file st l hp)
    (splitLines response) initPState
    ⟨by intro s hs; simp [initPState] at hs,
     by intro c hc; simp [initPState] at hc⟩
    (fun _ _ => trivial)
  exact flushPState_mem _ _ hP.1 hP.2

/-- Entering `quit` at any presenting state aborts with the counts so far. -/
theorem sessionLoop_quit (total : Nat) (patchOk : Nat → Bool)
    (current fixed skipped : Nat) (rest : List String) (h : current < total) :
    sessionLoop total patchOk current fixed skipped ("quit\n" :: rest) =
      ⟨SessionAction.abort, fixed, skipped⟩ := by
  conv_lhs => rw [sessionLoop.eq_def]
  rw [dif_pos h]
  simp only
  rw [if_neg (by decide), if_neg (by decide), if_neg (by decide), if_pos (by decide)]

/-- Entering `fix` with a successful patch advances and counts a fix. -/
theorem sessionLoop_fix_ok (total : Nat) (patchOk : Nat → Bool)
    (current fixed skipped : Nat) (rest : List String) (h : current < total)
    (hp : patchOk current = true) :
    sessionLoop total patchOk current fixed skipped ("fix\n" :: rest) =
      sessionLoop total patchOk (current + 1) (fixed + 1) skipped rest := by
  conv_lhs => rw [sessionLoop.eq_def]
  rw [dif_pos h]
  simp only
  rw [if_pos (by decide), if_pos hp]

/-- Entering `skip` advances and counts a skip. -/
theorem sessionLoop_skip (total : Nat) (patchOk : Nat → Bool)
    (current fixed skipped : Nat) (rest : List String) (h : current < total) :
    sessionLoop total patchOk current fixed skipped ("skip\n" :: rest) =
      sessionLoop total patchOk (current + 1) fixed (skipped + 1) rest := by
  conv_lhs => rw [sessionLoop.eq_def]
  rw [dif_pos h]
  simp only
  rw [if_neg (by decide), if_pos (by decide)]

/-- Entering `yes` at the commit prompt commits with the final counts. -/
theorem sessionLoop_yes (total : Nat) (patchOk : Nat → Bool)
    (current fixed skipped : Nat) (rest : List String) (h : ¬(current < total)) :
    sessionLoop total patchOk current fixed skipped ("yes\n" :: rest) =
      ⟨SessionAction.commit, fixed, skipped⟩ := by
  conv_lhs => rw [sessionLoop.eq_def]
  rw [dif_neg h]
  simp only
  rw [if_pos (by decide)]

/-- One orchestration step records the path and appends exactly the file's
contribution. -/
theorem reviewStep_eq (chat : FileChange → Except String String)
    (acc : ReviewResult) (c : FileChange) :
    reviewStep chat acc c =
      ⟨acc.Files ++ [c.Path], acc.Suggestions ++ fileSuggestions chat c,
       acc.Summary⟩ := by
  by_cases hb : c.IsBinary = true
  · simp [reviewStep, fileSuggestions, hb]
  · cases hc : chat c with
    | error e => simp [reviewStep, fileSuggestions, hb, hc]
    | ok r =>
      cases hp : parseReviewResponse r c.Path with
      | error e => simp [reviewStep, fileSuggestions, hb, hc, hp]
      | ok suggs => simp [reviewStep, fileSuggestions, hb, hc, hp]

/-- The orchestration loop, from any accumulator. -/
theorem Review_foldl_eq (chat : FileChange → Except String String) :
    ∀ (changes : List FileChange) (acc : ReviewResult),
      changes.foldl (reviewStep chat) acc =
        ⟨acc.Files ++ changes.map (fun c => c.Path),
         acc.Suggestions ++ changes.flatMap (fileSuggestions chat),
         acc.Summary⟩ := by
  intro changes
  induction changes with
  | nil => intro acc; cases acc; simp
  | cons c cs ih =>
    intro acc
    simp only [List.foldl_cons, reviewStep_eq, ih]
    simp

/-- The orchestrator `Review` records every path in order and aggregates, per file and in
order, exactly each file's contribution. -/
theorem Review_eq (chat : FileChange → Except String String)
    (changes : List FileChange) :
    Review chat changes =
      ⟨changes.map (fun c => c.Path), changes.flatMap (fileSuggestions chat),
       ""⟩ := by
  unfold Review
  rw [Review_foldl_eq]
  simp

/-- Every suggestion a file contributes is anchored to that file's path. -/
theorem fileSuggestions_file (chat : FileChange → Except String String)
    (c : FileChange) :
    ∀ s ∈ fileSuggestions chat c, s.File = c.Path := by
  intro s hs
  unfold fileSuggestions at hs
  by_cases hb : c.IsBinary = true
  · rw [if_pos hb] at hs; simp at hs
  · rw [if_neg hb] at hs
    cases hc : chat c with
    | error e => rw [hc] at hs; simp at hs
    | ok r =>
      rw [hc] at hs
      have hs2 : s ∈ (match parseReviewResponse r c.Path with
        | Except.error _ => []
        | Except.ok suggestions => suggestions) := hs
      unfold parseReviewResponse at hs2
      by_cases hr : r = "NO_ISSUES" ∨ r = ""
      · rw [if_pos hr] at hs2; simp at hs2
      · rw [if_neg hr] at hs2
        have hs' : s ∈ parseStructuredResponse r c.Path := hs2
        exact parseStructuredResponse_file_inv r c.Path s hs'

/-- Leftmost-occurrence bound from a decidable position check: if the
snippet does not occur at any position before `n`, every decomposition
places it at `n` or later. -/
theorem min_of_no_early (o s : List Char) (n : Nat)
    (h : ∀ p, p < n → o.isPrefixOf (s.drop p) = false) :
    ∀ pre' suf', s = pre' ++ o ++ suf' → n ≤ pre'.length := by
  intro pre' suf' hdec
  by_contra hlt
  push_neg at hlt
  have hocc : o.isPrefixOf (s.drop pre'.length) = true := by
    rw [hdec, List.append_assoc, List.drop_left]
    simp [List.isPrefixOf_iff_prefix, List.prefix_append]
  rw [h pre'.length hlt] at hocc
  exact Bool.noConfusion hocc

/-! ### The claims -/

/-- C1: the patch applier, on a suggestion with non-empty, non-sentinel
original and fix snippets: when the original snippet does not occur, or
replacing its first occurrence leaves the content unchanged, `applyFix`
reports failure and (the write being guarded by the result) the file is
unchanged; when it occurs, exactly the leftmost occurrence is replaced by
the fix snippet and the rewritten content is written.  The concrete
conjuncts are the specification's own example. -/
theorem C1_patch_applier :
    (∀ (sug : Suggestion) (content : String),
      sug.OriginalCode ≠ "" → sug.OriginalCode ≠ "N/A" →
      sug.SuggestFix ≠ "" → sug.SuggestFix ≠ "N/A" →
      (containsSub content.data sug.OriginalCode.data = false →
        applyFix sug content = none) ∧
      (replaceFirstL sug.OriginalCode.data sug.SuggestFix.data content.data =
          content.data →
        applyFix sug content = none) ∧
      (∀ pre suf, content.data = pre ++ sug.OriginalCode.data ++ suf →
        (∀ pre' suf', content.data = pre' ++ sug.OriginalCode.data ++ suf' →
          pre.length ≤ pre'.length) →
        replaceFirstL sug.OriginalCode.data sug.SuggestFix.data content.data =
          pre ++ sug.SuggestFix.data ++ suf ∧
        (String.mk (pre ++ sug.SuggestFix.data ++ suf) ≠ content →
          applyFix sug content =
            some (String.mk (pre ++ sug.SuggestFix.data ++ suf))))) ∧
    applyFix ⟨"f", 0, 0, "", "", "t", "", "foo", "bar", ""⟩ "abc\nfoo\nxyz" =
      some "abc\nbar\nxyz" ∧
    applyFix ⟨"f", 0, 0, "", "", "t", "", "notpresent", "bar", ""⟩ "abc\nfoo\nxyz" =
      none := by
  refine ⟨?_, by decide, by decide⟩
  intro sug content h1 h2 h3 h4
  refine ⟨?_, ?_, ?_⟩
  · intro hnc
    unfold applyFix
    rw [if_neg (by simp [h3, h4]), if_neg (by simp [h1, h2]), if_pos hnc]
  · intro hrep
    unfold applyFix
    rw [if_neg (by simp [h3, h4]), if_neg (by simp [h1, h2])]
    by_cases hcont : containsSub content.data sug.OriginalCode.data = false
    · rw [if_pos hcont]
    · rw [if_neg hcont, if_pos (show String.mk (replaceFirstL sug.OriginalCode.data
        sug.SuggestFix.data content.data) = content by rw [hrep])]
  · intro pre suf hdec hmin
    have hmin' : ∀ pre' suf',
        pre ++ sug.OriginalCode.data ++ suf = pre' ++ sug.OriginalCode.data ++ suf' →
        pre.length ≤ pre'.length :=
      fun pre' suf' h => hmin pre' suf' (hdec.trans h)
    have hrepl : replaceFirstL sug.OriginalCode.data sug.SuggestFix.data
        (pre ++ sug.OriginalCode.data ++ suf) = pre ++ sug.SuggestFix.data ++ suf :=
      replaceFirstL_leftmost sug.OriginalCode.data sug.SuggestFix.data pre suf hmin'
    have hrepl' : replaceFirstL sug.OriginalCode.data sug.SuggestFix.data
        content.data = pre ++ sug.SuggestFix.data ++ suf := by
      rw [hdec, hrepl]
    refine ⟨hrepl', ?_⟩
    intro hne
    unfold applyFix
    rw [if_neg (by simp [h3, h4]), if_neg (by simp [h1, h2])]
    have hcont : containsSub content.data sug.OriginalCode.data = true := by
      rw [hdec]; exact containsSub_append pre _ suf
    rw [if_neg (by simp [hcont]), hrepl']
    rw [if_neg hne]

/-- C1 witness: the general clauses applied to the specification's
example, with the leftmost decomposition `"abc\n" ++ "foo" ++ "\nxyz"`. -/
theorem C1_patch_applier_witness :
    replaceFirstL "foo".data "bar".data "abc\nfoo\nxyz".data =
      "abc\n".data ++ "bar".data ++ "\nxyz".data ∧
    applyFix ⟨"f", 0, 0, "", "", "t", "", "foo", "bar", ""⟩ "abc\nfoo\nxyz" =
      some (String.mk ("abc\n".data ++ "bar".data ++ "\nxyz".data)) := by
  have h := (C1_patch_applier.1 ⟨"f", 0, 0, "", "", "t", "", "foo", "bar", ""⟩
    "abc\nfoo\nxyz" (by decide) (by decide) (by decide) (by decide)).2.2
    "abc\n".data "\nxyz".data (by decide)
    (min_of_no_early "foo".data "abc\nfoo\nxyz".data 4 (by decide))
  exact ⟨h.1, h.2 (by decide)⟩

/-- C2: round-trip of the suggestion protocol — one record in the
documented format with LINE=10, END_LINE=12, SEVERITY=warning,
CONFIDENCE=medium, CATEGORY=bug, TITLE="t", DESCRIPTION="d", an ORIGINAL
block `"foo\nbar"` and a FIX block `"foo\nbaz"` parses to exactly one
Suggestion with those field values. -/
theorem C2_round_trip :
    parseReviewResponse
      "---\nLINE: 10\nEND_LINE: 12\nSEVERITY: warning\nCONFIDENCE: medium\nCATEGORY: bug\nTITLE: t\nDESCRIPTION: d\nORIGINAL:\n<<<\nfoo\nbar\n>>>\nFIX:\n<<<\nfoo\nbaz\n>>>\n---"
      "f" =
    Except.ok
      [⟨"f", 10, 12, "warning", "medium", "t", "d", "foo\nbar", "foo\nbaz", "bug"⟩] := by
  rfl

/-- C3: the response parser is total — for every input it returns a
(possibly empty) suggestion list and never a non-nil error; the
`NO_ISSUES` sentinel and the empty reply yield zero suggestions. -/
theorem C3_parser_total :
    (∀ (response file : String), ∃ l, parseReviewResponse response file = Except.ok l) ∧
    (∀ file : String,
      parseReviewResponse "NO_ISSUES" file = Except.ok [] ∧
      parseReviewResponse "" file = Except.ok []) := by
  constructor
  · intro response file
    unfold parseReviewResponse
    by_cases h : response = "NO_ISSUES" ∨ response = ""
    · rw [if_pos h]; exact ⟨[], rfl⟩
    · rw [if_neg h]; exact ⟨_, rfl⟩
  · intro file
    exact ⟨rfl, rfl⟩

/-- C4: every emitted suggestion has a non-empty title; a record whose
TITLE field is missing is dropped, while a record with an unparsable LINE
value is still emitted with `Line = 0`. -/
theorem C4_titles :
    (∀ (response file : String) (s : Suggestion),
      s ∈ parseStructuredResponse response file → s.Title ≠ "") ∧
    parseStructuredResponse "---\nLINE: 3\nDESCRIPTION: d\n---" "f" = [] ∧
    parseStructuredResponse "---\nLINE: abc\nTITLE: t\n---" "f" =
      [⟨"f", 0, 0, "", "", "t", "", "", "", ""⟩] := by
  refine ⟨?_, by decide, by decide⟩
  intro response file s hs
  exact parseStructuredResponse_titles response file s hs

/-- C4 witness: the titled record of the unparsable-LINE example has a
non-empty title. -/
theorem C4_titles_witness :
    (⟨"f", 0, 0, "", "", "t", "", "", "", ""⟩ : Suggestion).Title ≠ "" :=
  C4_titles.1 "---\nLINE: abc\nTITLE: t\n---" "f" _ (by decide)

/-- C5 counterexample: a record with `LINE: 5` and no `END_LINE` field is
parsed with `EndLine = 0`, not `EndLine = 5`, and its ending line is less
than its starting line — refuting both halves of the claim. -/
theorem C5_counterexample :
    parseStructuredResponse "---\nLINE: 5\nTITLE: t\n---" "f" =
      [⟨"f", 5, 0, "", "", "t", "", "", "", ""⟩] ∧
    ¬ (∀ s ∈ parseStructuredResponse "---\nLINE: 5\nTITLE: t\n---" "f",
        s.EndLine = s.Line ∧ s.EndLine ≥ s.Line) := by
  refine ⟨by decide, ?_⟩
  intro h
  have h5 := h ⟨"f", 5, 0, "", "", "t", "", "", "", ""⟩ (by decide)
  exact absurd h5.1 (by decide)

/-- C5 amended: when the `END_LINE` field is absent from the reply, every
emitted suggestion's ending line is the integer zero value, not the
starting line; in particular the ending line can be smaller than the
starting line. -/
theorem C5_amended_endline :
    ∀ (response file : String),
      (∀ l ∈ splitLines response, hasPrefixGo l "END_LINE:" = false) →
      ∀ s ∈ parseStructuredResponse response file, s.EndLine = 0 :=
  parseStructuredResponse_endline

/-- C5 witness: the amended claim evaluated on the counterexample input. -/
theorem C5_amended_witness :
    (⟨"f", 5, 0, "", "", "t", "", "", "", ""⟩ : Suggestion).EndLine = 0 :=
  C5_amended_endline "---\nLINE: 5\nTITLE: t\n---" "f" (by decide) _ (by decide)

/-- C6 counterexample: on a reply whose `<<<` does not follow an
`ORIGINAL:`/`FIX:` opener at all, the source still enters the block (so
the `LINE: 7` line inside is swallowed and `Line` stays 0), whereas the
machine built from the specification's words ignores the `<<<` and parses
`LINE: 7` — the two disagree. -/
theorem C6_counterexample :
    parseStructuredResponse "---\nTITLE: t\n<<<\nLINE: 7\n>>>\n---" "f" =
      [⟨"f", 0, 0, "", "", "t", "", "", "", ""⟩] ∧
    parseStructuredResponseSpecC6 "---\nTITLE: t\n<<<\nLINE: 7\n>>>\n---" "f" =
      [⟨"f", 7, 0, "", "", "t", "", "", "", ""⟩] ∧
    parseStructuredResponse "---\nTITLE: t\n<<<\nLINE: 7\n>>>\n---" "f" ≠
      parseStructuredResponseSpecC6 "---\nTITLE: t\n<<<\nLINE: 7\n>>>\n---" "f" := by
  exact ⟨by decide, by decide, by decide⟩

/-- C6 amended: a `<<<` line while in-record always transitions to
in-block, remembering the most recently seen `ORIGINAL:`/`FIX:` opener of
the record (possibly none); the lines up to `>>>` accumulate verbatim and
on `>>>` their newline-join is written to exactly the remembered field —
to `OriginalCode` after an `ORIGINAL:` opener, to `SuggestFix` after a
`FIX:` opener, and discarded when no opener was seen (`afterBlock`).  The
second conjunct states the opener bookkeeping: only `ORIGINAL:`/`FIX:`
lines change the remembered field. -/
theorem C6_amended :
    (∀ (file : String) (st : PState) (c : Suggestion) (body rest : List String),
      st.inMultiLine = false → st.current = some c → ">>>" ∉ body →
      List.foldl (parseLine file) st ("<<<" :: (body ++ ">>>" :: rest)) =
        List.foldl (parseLine file) (afterBlock st (joinLines body)) rest) ∧
    (∀ (file : String) (st : PState) (c : Suggestion) (l : String),
      st.inMultiLine = false → st.current = some c → l ≠ "---" →
      (parseLine file st l).lastField =
        if hasPrefixGo l "ORIGINAL:" = true then "ORIGINAL"
        else if hasPrefixGo l "FIX:" = true then "FIX"
        else st.lastField) := by
  constructor
  · intro file st c body rest hML hsc hb
    rw [List.foldl_cons, parseLine_open file st c hML hsc, List.foldl_append]
    rw [foldl_parseLine_inBlock file body _ rfl hb]
    rw [List.foldl_cons, parseLine_close file _ rfl]
    rfl
  · intro file st c l hML hsc hsep
    exact parseLine_lastField file st l c hML hsc hsep

/-- C6 witness: the amended block rule applied to a concrete in-record
state whose last opener was `ORIGINAL:`. -/
theorem C6_amended_witness :
    List.foldl (parseLine "f")
      ⟨[], some ⟨"f", 0, 0, "", "", "t", "", "", "", ""⟩, "", [], false, "ORIGINAL"⟩
      ("<<<" :: (["mycode"] ++ ">>>" :: [])) =
    List.foldl (parseLine "f")
      (afterBlock
        ⟨[], some ⟨"f", 0, 0, "", "", "t", "", "", "", ""⟩, "", [], false, "ORIGINAL"⟩
        (joinLines ["mycode"])) [] :=
  C6_amended.1 "f" _ ⟨"f", 0, 0, "", "", "t", "", "", "", ""⟩ ["mycode"] [] rfl rfl
    (by decide)

/-- C7: session engine trace — over 2 suggestions, `[fix (patch
succeeds), skip]` drains the list with fixed=1, skipped=1 (and the summary
prints 2−1−1 = 0 remaining), a following `yes` commits with those counts,
and `quit` at any presenting state aborts with the counts so far. -/
theorem C7_session_trace :
    (∀ patchOk : Nat → Bool, patchOk 0 = true →
      (∀ rest : List String,
        sessionLoop 2 patchOk 0 0 0 ("fix\n" :: "skip\n" :: rest) =
          sessionLoop 2 patchOk 2 1 1 rest) ∧
      Run 2 patchOk ["fix\n", "skip\n", "yes\n"] =
        ⟨SessionAction.commit, 1, 1⟩) ∧
    remainingCount 2 1 1 = 0 ∧
    (∀ (total : Nat) (patchOk : Nat → Bool) (current fixed skipped : Nat)
      (rest : List String), current < total →
      sessionLoop total patchOk current fixed skipped ("quit\n" :: rest) =
        ⟨SessionAction.abort, fixed, skipped⟩) := by
  refine ⟨?_, rfl, fun total patchOk current fixed skipped rest h =>
    sessionLoop_quit total patchOk current fixed skipped rest h⟩
  intro patchOk hp
  have hstep : ∀ rest : List String,
      sessionLoop 2 patchOk 0 0 0 ("fix\n" :: "skip\n" :: rest) =
        sessionLoop 2 patchOk 2 1 1 rest := by
    intro rest
    rw [sessionLoop_fix_ok 2 patchOk 0 0 0 _ (by omega) hp]
    rw [sessionLoop_skip 2 patchOk 1 1 0 _ (by omega)]
  refine ⟨hstep, ?_⟩
  unfold Run
  rw [if_neg (by omega), hstep ["yes\n"]]
  exact sessionLoop_yes 2 patchOk 2 1 1 [] (by omega)

/-- C7 witness: the trace with an always-succeeding patch oracle, and a
`quit` at the initial presenting state. -/
theorem C7_session_trace_witness :
    Run 2 (fun _ => true) ["fix\n", "skip\n", "yes\n"] =
      ⟨SessionAction.commit, 1, 1⟩ ∧
    sessionLoop 2 (fun _ => true) 0 0 0 ["quit\n"] =
      ⟨SessionAction.abort, 0, 0⟩ := by
  refine ⟨(C7_session_trace.1 (fun _ => true) rfl).2, ?_⟩
  exact C7_session_trace.2.2 2 (fun _ => true) 0 0 0 [] (by omega)

/-- C8: the change filter keeps, in their original order, exactly the
files that are neither glob-ignored (by full path or basename, among the
other rules) nor oversized; malformed glob patterns such as `"["` are
treated as non-matching and never fail. -/
theorem C8_change_filter :
    (∀ (changes : List FileChange) (patterns : List String) (maxSize : Int),
      filterChanges changes patterns maxSize =
        changes.filter (fun c => !shouldIgnoreFile c.Path patterns &&
          decide ((c.Content.length : Int) ≤ maxSize)) ∧
      (filterChanges changes patterns maxSize).Sublist changes ∧
      (∀ c ∈ changes,
        (∃ p ∈ patterns, pathMatch (toSlash p) (toSlash c.Path) = true ∨
          pathMatch (toSlash p) (basename c.Path) = true) →
        c ∉ filterChanges changes patterns maxSize) ∧
      (∀ c ∈ changes, (c.Content.length : Int) > maxSize →
        c ∉ filterChanges changes patterns maxSize)) ∧
    shouldIgnoreFile "main.go" ["["] = false ∧
    filterChanges [⟨"main.go", "M", "", "", "package main", false⟩] ["["] 100 =
      [⟨"main.go", "M", "", "", "package main", false⟩] := by
  refine ⟨?_, by decide, by decide⟩
  intro changes patterns maxSize
  have hfe : filterChanges changes patterns maxSize =
      changes.filter (fun c => !shouldIgnoreFile c.Path patterns &&
        decide ((c.Content.length : Int) ≤ maxSize)) := by
    unfold filterChanges
    rw [filterChanges_eq_filter]
    simp
  refine ⟨hfe, by rw [hfe]; exact List.filter_sublist _, ?_, ?_⟩
  · rintro c hc ⟨p, hp, hmatch⟩ hmem
    rw [hfe] at hmem
    rw [List.mem_filter] at hmem
    have hign : shouldIgnoreFile c.Path patterns = true := by
      unfold shouldIgnoreFile
      simp only [List.any_eq_true]
      refine ⟨p, hp, ?_⟩
      rcases hmatch with h | h <;> simp [h]
    rw [hign] at hmem
    simp at hmem
  · intro c hc hsz hmem
    rw [hfe] at hmem
    rw [List.mem_filter] at hmem
    have h2 := hmem.2
    simp at h2
    omega

/-- C8 witness: a basename glob excludes a file; the size bound excludes a
file. -/
theorem C8_change_filter_witness :
    (⟨"x/app.min.js", "M", "", "", "x", false⟩ : FileChange) ∉
      filterChanges [⟨"x/app.min.js", "M", "", "", "x", false⟩] ["*.min.js"] 100 ∧
    (⟨"big.go", "M", "", "", "123456", false⟩ : FileChange) ∉
      filterChanges [⟨"big.go", "M", "", "", "123456", false⟩] [] 5 := by
  constructor
  · exact (C8_change_filter.1 [⟨"x/app.min.js", "M", "", "", "x", false⟩]
      ["*.min.js"] 100).2.2.1 _ (by decide)
      ⟨"*.min.js", by decide, Or.inr (by decide)⟩
  · exact (C8_change_filter.1 [⟨"big.go", "M", "", "", "123456", false⟩]
      [] 5).2.2.2 _ (by decide) (by decide)

/-- C9: orchestrator invariant — for every change list and every assistant
behavior, every aggregated suggestion's file appears in the result's file
list; the files are exactly the input paths in order; the suggestion list
is the in-order concatenation of per-file contributions; and a binary file
or a file whose assistant call fails contributes zero suggestions (the
batch continuing with the rest). -/
theorem C9_orchestrator :
    ∀ (chat : FileChange → Except String String) (changes : List FileChange),
      (∀ s ∈ (Review chat changes).Suggestions,
        s.File ∈ (Review chat changes).Files) ∧
      (Review chat changes).Files = changes.map (fun c => c.Path) ∧
      (Review chat changes).Suggestions =
        changes.flatMap (fileSuggestions chat) ∧
      (∀ c ∈ changes, c.IsBinary = true → fileSuggestions chat c = []) ∧
      (∀ c ∈ changes, ∀ e, chat c = Except.error e →
        fileSuggestions chat c = []) := by
  intro chat changes
  have he := Review_eq chat changes
  refine ⟨?_, by rw [he], by rw [he], ?_, ?_⟩
  · intro s hs
    rw [he] at hs ⊢
    rcases List.mem_flatMap.mp hs with ⟨c, hc, hsc⟩
    rw [fileSuggestions_file chat c s hsc]
    exact List.mem_map.mpr ⟨c, hc, rfl⟩
  · intro c _ hb
    unfold fileSuggestions
    rw [if_pos hb]
  · intro c _ e he2
    unfold fileSuggestions
    by_cases hb : c.IsBinary = true
    · rw [if_pos hb]
    · rw [if_neg hb, he2]

/-- C9 witness: a two-file batch whose second file is binary and whose
assistant errors on everything but the first file; the one suggestion's
file is listed. -/
theorem C9_orchestrator_witness :
    (⟨"a.go", 1, 1, "warning", "", "t", "", "", "", ""⟩ : Suggestion).File ∈
      (Review
        (fun c => if c.Path = "a.go"
          then Except.ok "---\nLINE: 1\nEND_LINE: 1\nSEVERITY: warning\nTITLE: t\n---"
          else Except.error "transport")
        [⟨"a.go", "M", "", "", "x", false⟩,
         ⟨"b.png", "A", "", "", "y", true⟩]).Files :=
  (C9_orchestrator _ _).1 _ (by decide)

/-- C10: when the input ends while a `<<< ... >>>` block is still open,
the accumulated block lines are discarded — the record keeps the previous
values of its ORIGINAL/FIX fields — and the enclosing record is still
flushed when its title is non-empty.  The concrete conjunct shows an
unclosed FIX block being dropped while the record (with its earlier
`ORIGINAL: old` value) is emitted. -/
theorem C10_unclosed_block :
    (∀ (file : String) (st : PState) (c : Suggestion) (body : List String),
      st.inMultiLine = true → st.current = some c → ">>>" ∉ body →
      flushPState (body.foldl (parseLine file) st) =
        st.suggestions ++ (if c.Title ≠ "" then [c] else [])) ∧
    parseStructuredResponse "---\nTITLE: t\nORIGINAL: old\nFIX:\n<<<\nnewstuff" "f" =
      [⟨"f", 0, 0, "", "", "t", "", "old", "", ""⟩] := by
  refine ⟨?_, by decide⟩
  intro file st c body hML hsc hb
  rw [foldl_parseLine_inBlock file body st hML hb]
  show st.suggestions ++
    (match st.current with
     | some c => if c.Title ≠ "" then [c] else []
     | none => []) = _
  rw [hsc]

/-- C10 witness: the general clause applied to a concrete open-block
state. -/
theorem C10_unclosed_block_witness :
    flushPState (["newstuff"].foldl (parseLine "f")
      ⟨[], some ⟨"f", 0, 0, "", "", "t", "", "old", "", ""⟩, "FIX", [], true, "FIX"⟩) =
      [⟨"f", 0, 0, "", "", "t", "", "old", "", ""⟩] := by
  have h := C10_unclosed_block.1 "f"
    ⟨[], some ⟨"f", 0, 0, "", "", "t", "", "old", "", ""⟩, "FIX", [], true, "FIX"⟩
    ⟨"f", 0, 0, "", "", "t", "", "old", "", ""⟩ ["newstuff"] rfl rfl (by decide)
  rw [h]
  decide

end Prereview
